import Mathlib

/-!
# godzilla: a mutation tester for Go packages

A shallow embedding of `main.go`: the `Visitor`, its `TestMutant` and `Visit`
methods, `getExitCode`, the `swapIfElse` mutator and the part of `main` that
builds the visitor, walks the package and prints the score.  The pieces of the
Go standard library the program calls (`go/ast`, `os`, `strconv`) are modelled
next to them.

The syntax tree is mutated in place by the Go code.  Here every operation
returns the node as it is after the call, and the callback of a mutator is
given the node as it is at the moment of the call; a context function
(`Node → List Node`) rebuilds from it the packages that `Visitor.pkgs` points
to, which is what `TestMutant` prints.
-/

namespace Godzilla

/-! ## The data model -/

/-- The nodes of `go/ast` the program distinguishes.  `Package` carries the
entries of its `Files` map in iteration order, each a `File` tagged with its
key (the full file name).  `IfStmt` has the four fields `Init`, `Cond`, `Body`,
`Else` (`Init` and `Else` may be nil; `Body` is a `*ast.BlockStmt` in Go).
Every other kind of node is `other`, with its children in the order `ast.Walk`
visits them.  Source positions are left out: neither the walk nor the mutator
reads or writes them. -/
inductive Node where
  | Package (name : String) (files : List Node)
  | File (fullFileName : String) (children : List Node)
  | IfStmt (init : Option Node) (cond : Node) (body : Node) (els : Option Node)
  | BlockStmt (list : List Node)
  | other (kind : String) (children : List Node)

/-- A Go `error` value that is not nil: an `*exec.ExitError` with the exit status
of the process, or any other error. -/
inductive GoError where
  | ExitError (status : Int)
  | other (msg : String)

/-- How a call can fail to return: a Go panic, or the fuel of the model of
`ast.Walk` running out. -/
inductive Fault where
  | panic
  | outOfFuel
  deriving DecidableEq

/-- The result of a call that may panic. -/
abbrev Res (α : Type) := Except Fault α

/-- The fields `tmpDir`, `mutantCount`, `mutantKill` of the Go struct.  The
field `pkgs` points into the tree being walked and is passed to `TestMutant`
as its current value, `mutator` is a parameter of `Visit`, and `fset` holds only
positions.  The counters are Go `int`s; they count nodes of a tree held in
memory, so they stay far from the 64 bit limit and are not wrapped. -/
structure Visitor where
  tmpDir : String
  mutantCount : Int
  mutantKill : Int

/-- The part of the file system the program writes: the directories made with
`os.Mkdir`, oldest first, and the files printed, each with the tree written
to it. -/
structure World where
  dirs : List String
  written : List (String × Node)

/-- An `exec.Cmd`: the program, its arguments and its working directory. -/
structure Cmd where
  Path : String
  Args : List String
  Dir : String

/-- The state a walk threads through: the visitor and the file system. -/
abbrev St := Visitor × World

/-- A mutator `func(ast.Node, func())`: it is given the node (nil is `none`),
the callback and the state, and returns the node as it has left it.  The
callback reads the node as it is when it is called. -/
abbrev Mutator (σ : Type) := Option Node → (Node → σ → Res σ) → σ → Res (Option Node × σ)

/-! ## Library functions -/

/-- The string of `os.PathSeparator` (Unix). -/
def PathSeparator : String := "/"

/-- The decimal digit `d` as a character. -/
def digitChar (d : Nat) : Char := Char.ofNat (48 + d)

/-- The decimal digits of `n` in front of `acc`, most significant first. -/
def decimal : Nat → Nat → List Char → List Char
  | 0, _, acc => acc
  | fuel + 1, n, acc =>
    if n < 10 then digitChar n :: acc
    else decimal fuel (n / 10) (digitChar (n % 10) :: acc)

/-- The function `strconv.Itoa`: the decimal numeral of an integer, with a
minus sign when it is negative. -/
def Itoa (i : Int) : String :=
  if i < 0 then String.mk ('-' :: decimal (i.natAbs + 1) i.natAbs [])
  else String.mk (decimal (i.natAbs + 1) i.natAbs [])

/-- The index of the last `sep` in `s` at or after position `i`, or `last`. -/
def lastIndexFrom (sep : Char) : List Char → Nat → Int → Int
  | [], _, last => last
  | c :: cs, i, last => lastIndexFrom sep cs (i + 1) (if c = sep then (i : Int) else last)

/-- The function `strings.LastIndex` for a one-character separator: -1 when
the separator does not occur. -/
def LastIndex (s : String) (sep : Char) : Int := lastIndexFrom sep s.toList 0 (-1)

/-- The call `os.Mkdir` in the directory of the run: it fails when the
directory exists already, and only then. -/
def Mkdir (w : World) (name : String) : Option GoError × World :=
  if name ∈ w.dirs then (some (GoError.other "file exists"), w)
  else (none, { w with dirs := w.dirs ++ [name] })

/-- The calls `os.OpenFile` and `printer.Fprint` together: the tree is
written to the file.  The file is opened in a directory just made, which is
taken to succeed; an error of the printer is only reported by the program. -/
def printTo (w : World) (path : String) (astFile : Node) : World :=
  { w with written := w.written ++ [(path, astFile)] }

/-- The call `exec.Command`. -/
def Command (name : String) (args : List String) : Cmd :=
  { Path := name, Args := name :: args, Dir := "" }

/-! ## The program -/

/-- The exit code of an error returned by `Cmd.Run`, zero when the error is
nil; any other error panics. -/
def getExitCode (err : Option GoError) : Res Int :=
  match err with
  | none => .ok 0
  | some (GoError.ExitError status) => .ok status
  | some (GoError.other _) => .error Fault.panic

/-- The file name after the last path separator:
`fullFileName[strings.LastIndex(fullFileName, sep)+1:]`. -/
def fileNameOf (fullFileName : String) : String :=
  String.mk (fullFileName.toList.drop (LastIndex fullFileName '/' + 1).toNat)

/-- The loop of `TestMutant` over the files of one package. -/
def writeFiles (mutantDir : String) (files : List Node) (w : World) : World :=
  files.foldl (fun w f =>
    match f with
    | Node.File fullFileName _ =>
      printTo w (mutantDir ++ PathSeparator ++ fileNameOf fullFileName) f
    | _ => w) w

/-- The loop of `TestMutant` over `v.pkgs`. -/
def writePkgs (mutantDir : String) (pkgs : List Node) (w : World) : World :=
  pkgs.foldl (fun w pkg =>
    match pkg with
    | Node.Package _ files => writeFiles mutantDir files w
    | _ => w) w

/-- The method `Visitor.TestMutant`; `pkgs` is what `v.pkgs` points to when it
is called.  The command is built and never run, and the error given to
`getExitCode` is the one `os.Mkdir` returned: the errors of the loop are in
variables of their own. -/
def TestMutant (pkgs : List Node) (v : Visitor) (w : World) : Res (Visitor × World) :=
  let mutantDir := v.tmpDir ++ PathSeparator ++ Itoa v.mutantCount
  let (err, w1) := Mkdir w mutantDir
  if err.isSome then .error Fault.panic
  else
    let w2 := writePkgs mutantDir pkgs w1
    let _cmd : Cmd := { Command "go" ["test"] with Dir := mutantDir }
    let v1 : Visitor := { v with mutantCount := v.mutantCount + 1 }
    match getExitCode err with
    | .error e => .error e
    | .ok code =>
      if code = 0 then .ok ({ v1 with mutantKill := v1.mutantKill + 1 }, w2)
      else .ok (v1, w2)

/-- The function `swapIfElse`: on an if statement whose else is a block, the
else becomes the body and the body the else, and `testMutant` is called. -/
def swapIfElse {σ : Type} : Mutator σ := fun node testMutant s =>
  match node with
  | some (Node.IfStmt init cond body (some (Node.BlockStmt el))) =>
    let ifstmt := Node.IfStmt init cond (Node.BlockStmt el) (some body)
    match testMutant ifstmt s with
    | .error e => .error e
    | .ok s1 => .ok (some ifstmt, s1)
  | _ => .ok (node, s)

/-- The method `Visitor.Visit`: the node goes to the mutator with
`v.TestMutant` as the callback.  The visitor it returns is `v` itself, never
nil, so the walk always goes on. -/
def Visit (mutator : Mutator St) (ctx : Node → List Node) (node : Option Node) (s : St) :
    Res (Option Node × St) :=
  mutator node (fun n s1 => TestMutant (ctx n) s1.1 s1.2) s

/-! ## The walk of `go/ast` -/

/-- A child that may be nil is walked when it is not. -/
def walkOpt (walk : (Node → List Node) → Option Node → St → Res (Node × St))
    (ctx : Option Node → List Node) (child : Option Node) (s : St) : Res (Option Node × St) :=
  match child with
  | none => .ok (none, s)
  | some x =>
    match walk (fun y => ctx (some y)) (some x) s with
    | .error e => .error e
    | .ok (x1, s1) => .ok (some x1, s1)

/-- The children of a list are walked in order; `done` are the ones walked
already. -/
def walkList (walk : (Node → List Node) → Option Node → St → Res (Node × St))
    (ctx : List Node → List Node) : List Node → List Node → St → Res (List Node × St)
  | _, [], s => .ok ([], s)
  | done, x :: rest, s =>
    match walk (fun y => ctx (done ++ y :: rest)) (some x) s with
    | .error e => .error e
    | .ok (x1, s1) =>
      match walkList walk ctx (done ++ [x1]) rest s1 with
      | .error e => .error e
      | .ok (rest1, s2) => .ok (x1 :: rest1, s2)

/-- The children of a node are walked, in the order of `ast.Walk`. -/
def walkChildren (walk : (Node → List Node) → Option Node → St → Res (Node × St))
    (ctx : Node → List Node) (node : Option Node) (s : St) : Res (Node × St) :=
  match node with
  | none => .error Fault.panic
  | some (Node.Package name files) =>
    match walkList walk (fun fs => ctx (Node.Package name fs)) [] files s with
    | .error e => .error e
    | .ok (files1, s1) => .ok (Node.Package name files1, s1)
  | some (Node.File fullFileName children) =>
    match walkList walk (fun cs => ctx (Node.File fullFileName cs)) [] children s with
    | .error e => .error e
    | .ok (children1, s1) => .ok (Node.File fullFileName children1, s1)
  | some (Node.IfStmt init cond body els) =>
    match walkOpt walk (fun i => ctx (Node.IfStmt i cond body els)) init s with
    | .error e => .error e
    | .ok (init1, s1) =>
      match walk (fun c => ctx (Node.IfStmt init1 c body els)) (some cond) s1 with
      | .error e => .error e
      | .ok (cond1, s2) =>
        match walk (fun b => ctx (Node.IfStmt init1 cond1 b els)) (some body) s2 with
        | .error e => .error e
        | .ok (body1, s3) =>
          match walkOpt walk (fun e => ctx (Node.IfStmt init1 cond1 body1 e)) els s3 with
          | .error e => .error e
          | .ok (els1, s4) => .ok (Node.IfStmt init1 cond1 body1 els1, s4)
  | some (Node.BlockStmt list) =>
    match walkList walk (fun l => ctx (Node.BlockStmt l)) [] list s with
    | .error e => .error e
    | .ok (list1, s1) => .ok (Node.BlockStmt list1, s1)
  | some (Node.other kind children) =>
    match walkList walk (fun cs => ctx (Node.other kind cs)) [] children s with
    | .error e => .error e
    | .ok (children1, s1) => .ok (Node.other kind children1, s1)

/-- The function `ast.Walk` with a `*Visitor`: `v.Visit(node)`, then the
children of the node as `Visit` has left it (a nil node panics there), then
`v.Visit(nil)`.  The fuel bounds the depth of the recursion. -/
def Walk (mutator : Mutator St) : Nat → (Node → List Node) → Option Node → St → Res (Node × St)
  | 0, _, _, _ => .error Fault.outOfFuel
  | fuel + 1, ctx, node, s =>
    match Visit mutator ctx node s with
    | .error e => .error e
    | .ok (node1, s1) =>
      match walkChildren (Walk mutator fuel) ctx node1 s1 with
      | .error e => .error e
      | .ok (node2, s2) =>
        match Visit mutator (fun _ => ctx node2) none s2 with
        | .error e => .error e
        | .ok (_, s3) => .ok (node2, s3)

/-! ## The driver in `main` -/

/-- The function `strings.HasSuffix`. -/
def HasSuffix (s suffix : String) : Bool := suffix.toList.isSuffixOf s.toList

/-- The loop of `main` that finds the package to mutate: `pkg` is the last
package of the iteration whose name does not end in `_test`, here its index in
`spkgs`; it stays nil when there is none. -/
def pickPkg : List Node → Nat → Option Nat → Option Nat
  | [], _, pkg => pkg
  | p :: ps, i, pkg =>
    pickPkg ps (i + 1)
      (match p with
       | Node.Package name _ => if HasSuffix name "_test" then pkg else some i
       | _ => pkg)

/-- The function `main` from the loop that picks the package on: the visitor
is built with both counters at zero and `swapIfElse` as its mutator, and the
package is walked.  The directory `tmpDir` comes from `ioutil.TempDir` and is
empty; `pkgs` are the parsed packages in the order the loop meets them. -/
def main (fuel : Nat) (tmpDir : String) (pkgs : List Node) : Res (Node × St) :=
  let v : Visitor := { tmpDir := tmpDir, mutantCount := 0, mutantKill := 0 }
  let w : World := { dirs := [], written := [] }
  match pickPkg pkgs 0 none with
  | none => Walk swapIfElse fuel (fun _ => pkgs) none (v, w)
  | some i => Walk swapIfElse fuel (fun p => pkgs.set i p) pkgs[i]? (v, w)

/-- The value of a `float64` quotient of two integers: not a number, an
infinity, or the quotient (the rounding of the quotient is left out). -/
inductive Score where
  | NaN
  | Inf (negative : Bool)
  | finite (q : ℚ)

/-- The score `main` prints: `float64(v.mutantKill)/float64(v.mutantCount)`. -/
def mutationScore (v : Visitor) : Score :=
  if v.mutantCount = 0 then
    if v.mutantKill = 0 then Score.NaN else Score.Inf (decide (v.mutantKill < 0))
  else Score.finite ((v.mutantKill : ℚ) / (v.mutantCount : ℚ))

/-! ## Notions of the specification -/

/-- The node is an if statement. -/
def isIfStmt : Option Node → Bool
  | some (Node.IfStmt _ _ _ _) => true
  | _ => false

/-- The node is an if statement without an else. -/
def hasNoElse : Option Node → Bool
  | some (Node.IfStmt _ _ _ none) => true
  | _ => false

/-- The node is an if statement whose else is an if statement again. -/
def isElseIf : Option Node → Bool
  | some (Node.IfStmt _ _ _ (some (Node.IfStmt _ _ _ _))) => true
  | _ => false

/-- The node is an if statement whose else is a plain block. -/
def eligible : Node → Bool
  | Node.IfStmt _ _ _ (some (Node.BlockStmt _)) => true
  | _ => false

mutual
/-- The number of if statements with a plain block as else in a tree. -/
def eligibleCount : Node → Nat
  | Node.Package _ files => eligibleCountList files
  | Node.File _ children => eligibleCountList children
  | Node.IfStmt init cond body els =>
    (match els with
     | some (Node.BlockStmt _) => 1
     | _ => 0)
      + eligibleCountOpt init + eligibleCount cond + eligibleCount body + eligibleCountOpt els
  | Node.BlockStmt list => eligibleCountList list
  | Node.other _ children => eligibleCountList children
/-- The eligible statements of a list of trees. -/
def eligibleCountList : List Node → Nat
  | [] => 0
  | x :: xs => eligibleCount x + eligibleCountList xs
/-- The eligible statements of a tree that may be missing. -/
def eligibleCountOpt : Option Node → Nat
  | none => 0
  | some x => eligibleCount x
end

mutual
/-- The number of nodes of a tree; fuel that suffices for its walk. -/
def size : Node → Nat
  | Node.Package _ files => 1 + sizeList files
  | Node.File _ children => 1 + sizeList children
  | Node.IfStmt init cond body els => 1 + sizeOpt init + size cond + size body + sizeOpt els
  | Node.BlockStmt list => 1 + sizeList list
  | Node.other _ children => 1 + sizeList children
/-- The nodes of a list of trees. -/
def sizeList : List Node → Nat
  | [] => 0
  | x :: xs => size x + sizeList xs
/-- The nodes of a tree that may be missing. -/
def sizeOpt : Option Node → Nat
  | none => 0
  | some x => size x
end

/-- The name of the directory of mutant `k`. -/
def mutantDirName (tmpDir : String) (k : Int) : String :=
  tmpDir ++ PathSeparator ++ Itoa k

/-! ## Example packages -/

/-- An identifier. -/
def ident (name : String) : Node := Node.other ("Ident " ++ name) []

/-- The statement `return x`. -/
def ret (name : String) : Node := Node.other "ReturnStmt" [ident name]

/-- The expression `a > b`. -/
def gt (a b : String) : Node := Node.other "BinaryExpr >" [ident a, ident b]

/-- The statement `if a > b { return a } else { return b }`. -/
def maxIf : Node :=
  Node.IfStmt none (gt "a" "b") (Node.BlockStmt [ret "a"]) (some (Node.BlockStmt [ret "b"]))

/-- The statement `if a > b { return b } else { return a }`: `maxIf` with its
blocks exchanged. -/
def maxIfSwapped : Node :=
  Node.IfStmt none (gt "a" "b") (Node.BlockStmt [ret "b"]) (some (Node.BlockStmt [ret "a"]))

/-- A file `package p` with one function `f` whose body is `stmts`. -/
def fileOf (fullFileName : String) (stmts : List Node) : Node :=
  Node.File fullFileName
    [ident "p", Node.other "FuncDecl" [ident "f", Node.other "FuncType" [], Node.BlockStmt stmts]]

/-- The package of scenarios A and B: `max` with its if/else. -/
def maxPkg : Node := Node.Package "p" [fileOf "/go/src/p/max.go" [maxIf]]

/-- The statement `if c < d { return c } else { return d }`. -/
def minIf : Node :=
  Node.IfStmt none (Node.other "BinaryExpr <" [ident "c", ident "d"])
    (Node.BlockStmt [ret "c"]) (some (Node.BlockStmt [ret "d"]))

/-- The statement `minIf` with its blocks exchanged. -/
def minIfSwapped : Node :=
  Node.IfStmt none (Node.other "BinaryExpr <" [ident "c", ident "d"])
    (Node.BlockStmt [ret "d"]) (some (Node.BlockStmt [ret "c"]))

/-- A package with two eligible statements, one after the other. -/
def twoPkg : Node := Node.Package "p" [fileOf "/go/src/p/two.go" [maxIf, minIf]]

/-- The chain `if a > b { return a } else if c < d { return c } else { return d }`. -/
def chainIf : Node :=
  Node.IfStmt none (gt "a" "b") (Node.BlockStmt [ret "a"]) (some minIf)

/-- A package whose only if statements are the two links of `chainIf`. -/
def chainPkg : Node := Node.Package "p" [fileOf "/go/src/p/chain.go" [chainIf]]

/-- The package of scenario B as the mutant written for it: `max` with the
blocks of its if/else exchanged. -/
def survivorPkg : Node := Node.Package "p" [fileOf "/go/src/p/max.go" [maxIfSwapped]]

/-- The file of `twoPkg` after the walk: both statements exchanged. -/
def twoFileSwapped : Node := fileOf "/go/src/p/two.go" [maxIfSwapped, minIfSwapped]

/-- The state in which `main` starts the walk in `/tmp/mutester`. -/
def startState : St :=
  ({ tmpDir := "/tmp/mutester", mutantCount := 0, mutantKill := 0 }, { dirs := [], written := [] })

/-- The result of the run on `twoPkg` in `/tmp/mutester`. -/
def twoFinal : Node × St :=
  (Node.Package "p" [twoFileSwapped],
   { tmpDir := "/tmp/mutester", mutantCount := 2, mutantKill := 2 },
   { dirs := ["/tmp/mutester/0", "/tmp/mutester/1"],
     written := [("/tmp/mutester/0/two.go", fileOf "/go/src/p/two.go" [maxIfSwapped, minIf]),
                 ("/tmp/mutester/1/two.go", twoFileSwapped)] })

/-- The file of `chainPkg` with the blocks of the else-if link exchanged. -/
def chainFileSwapped : Node :=
  fileOf "/go/src/p/chain.go"
    [Node.IfStmt none (gt "a" "b") (Node.BlockStmt [ret "a"]) (some minIfSwapped)]

/-! ## Notions of the proofs -/

/-- The value of a string of digits read from the left, starting from `a`. -/
def numVal (a : Nat) (cs : List Char) : Nat :=
  cs.foldl (fun a c => 10 * a + (c.toNat - 48)) a


/-- The node as `swapIfElse` leaves it. -/
def swapNode : Node → Node
  | Node.IfStmt init cond body (some (Node.BlockStmt el)) =>
    Node.IfStmt init cond (Node.BlockStmt el) (some body)
  | n => n

/-- The eligible statements strictly below a node. -/
def innerCount : Node → Nat
  | Node.Package _ files => eligibleCountList files
  | Node.File _ children => eligibleCountList children
  | Node.IfStmt init cond body els =>
    eligibleCountOpt init + eligibleCount cond + eligibleCount body + eligibleCountOpt els
  | Node.BlockStmt list => eligibleCountList list
  | Node.other _ children => eligibleCountList children

/-- The state `t` comes from `s` by `k` test cycles: the counters have grown
by `k` and the directories of mutants `mutantCount`, …, `mutantCount + k - 1`
have been made, in this order. -/
def Cycles (k : Nat) (s t : St) : Prop :=
  t.1.tmpDir = s.1.tmpDir ∧
  t.1.mutantCount = s.1.mutantCount + k ∧
  t.1.mutantKill = s.1.mutantKill + k ∧
  t.2.dirs = s.2.dirs ++
    (List.range k).map (fun (j : Nat) => mutantDirName s.1.tmpDir (s.1.mutantCount + (j : Int)))

/-- No directory of a mutant still to come exists. -/
def Fresh (s : St) : Prop :=
  ∀ j : Nat, mutantDirName s.1.tmpDir (s.1.mutantCount + (j : Int)) ∉ s.2.dirs

/-- The result of a step from `s` that, when it has returned, has run `k` test
cycles, and that has returned when `enough` holds and `s` is fresh. -/
def GoodAt {α : Type} (k : Nat) (enough : Prop) (s : St) (res : Res (α × St)) : Prop :=
  (∀ r, res = .ok r → Cycles k s r.2) ∧ (enough → Fresh s → ∃ r, res = .ok r)

/-- A step that is good from every state. -/
def Good {α : Type} (k : Nat) (enough : Prop) (f : St → Res (α × St)) : Prop :=
  ∀ s, GoodAt k enough s (f s)


/-! # Theorems -/

/-! ## Decimal numerals -/

theorem digitChar_toNat (d : Nat) (h : d < 10) : (digitChar d).toNat - 48 = d := by
  interval_cases d <;> decide

theorem digitChar_ne_minus (d : Nat) (h : d < 10) : digitChar d ≠ '-' := by
  interval_cases d <;> decide

theorem numVal_decimal (fuel : Nat) : ∀ (n : Nat) (acc : List Char), n < fuel →
    numVal 0 (decimal fuel n acc) = numVal n acc := by
  induction fuel with
  | zero => intro n acc h; omega
  | succ fuel ih =>
    intro n acc h
    unfold decimal
    split
    · rename_i h10
      simp [numVal, digitChar_toNat n h10]
    · rename_i h10
      rw [ih (n / 10) _ (by omega)]
      have hd := digitChar_toNat (n % 10) (Nat.mod_lt _ (by decide))
      simp only [numVal, List.foldl_cons, hd]
      congr 1
      omega

theorem minus_not_mem_decimal (fuel : Nat) : ∀ (n : Nat) (acc : List Char),
    '-' ∉ acc → '-' ∉ decimal fuel n acc := by
  induction fuel with
  | zero => intro n acc h; simpa [decimal] using h
  | succ fuel ih =>
    intro n acc h
    unfold decimal
    split
    · rename_i h10
      simp only [List.mem_cons, not_or]
      exact ⟨fun e => digitChar_ne_minus n h10 e.symm, h⟩
    · apply ih
      simp only [List.mem_cons, not_or]
      exact ⟨fun e => digitChar_ne_minus _ (Nat.mod_lt _ (by decide)) e.symm, h⟩

theorem decimal_inj (a b : Nat)
    (h : decimal (a + 1) a [] = decimal (b + 1) b []) : a = b := by
  have ha := numVal_decimal (a + 1) a [] (by omega)
  have hb := numVal_decimal (b + 1) b [] (by omega)
  rw [h] at ha
  simpa [numVal] using ha.symm.trans hb

theorem Itoa_injective (a b : Int) (h : Itoa a = Itoa b) : a = b := by
  unfold Itoa at h
  split at h <;> split at h
  · have h1 := decimal_inj _ _ (List.cons.inj (congrArg String.data h : _)).2
    omega
  · exfalso
    have h1 : '-' :: decimal (a.natAbs + 1) a.natAbs [] = decimal (b.natAbs + 1) b.natAbs [] :=
      congrArg String.data h
    have h2 := minus_not_mem_decimal (b.natAbs + 1) b.natAbs [] (by simp)
    rw [← h1] at h2
    simp at h2
  · exfalso
    have h1 : decimal (a.natAbs + 1) a.natAbs [] = '-' :: decimal (b.natAbs + 1) b.natAbs [] :=
      congrArg String.data h
    have h2 := minus_not_mem_decimal (a.natAbs + 1) a.natAbs [] (by simp)
    rw [h1] at h2
    simp at h2
  · have h1 := decimal_inj _ _ (congrArg String.data h : _)
    omega

theorem mutantDirName_injective (tmpDir : String) (a b : Int)
    (h : mutantDirName tmpDir a = mutantDirName tmpDir b) : a = b := by
  apply Itoa_injective
  unfold mutantDirName at h
  have h1 := congrArg String.data h
  simp only [String.data_append, List.append_cancel_left_eq] at h1
  exact String.ext h1



/-! ## Test cycles -/

theorem writeFiles_dirs (d : String) (files : List Node) :
    ∀ w : World, (writeFiles d files w).dirs = w.dirs := by
  unfold writeFiles
  induction files with
  | nil => intro w; rfl
  | cons f fs ih =>
    intro w
    rw [List.foldl_cons, ih]
    split <;> rfl

theorem writePkgs_dirs (d : String) (pkgs : List Node) :
    ∀ w : World, (writePkgs d pkgs w).dirs = w.dirs := by
  unfold writePkgs
  induction pkgs with
  | nil => intro w; rfl
  | cons p ps ih =>
    intro w
    rw [List.foldl_cons, ih]
    split
    · exact writeFiles_dirs _ _ _
    · rfl

theorem TestMutant_fresh (pkgs : List Node) (v : Visitor) (w : World)
    (h : mutantDirName v.tmpDir v.mutantCount ∉ w.dirs) :
    TestMutant pkgs v w =
      .ok ({ v with mutantCount := v.mutantCount + 1, mutantKill := v.mutantKill + 1 },
        writePkgs (mutantDirName v.tmpDir v.mutantCount) pkgs
          { w with dirs := w.dirs ++ [mutantDirName v.tmpDir v.mutantCount] }) := by
  unfold mutantDirName at h
  simp [TestMutant, Mkdir, h, getExitCode, mutantDirName]

theorem TestMutant_exists (pkgs : List Node) (v : Visitor) (w : World)
    (h : mutantDirName v.tmpDir v.mutantCount ∈ w.dirs) :
    TestMutant pkgs v w = .error Fault.panic := by
  unfold mutantDirName at h
  simp [TestMutant, Mkdir, h]

theorem TestMutant_cycle (pkgs : List Node) (s t : St)
    (h : TestMutant pkgs s.1 s.2 = .ok t) : Cycles 1 s t := by
  by_cases hd : mutantDirName s.1.tmpDir s.1.mutantCount ∈ s.2.dirs
  · rw [TestMutant_exists _ _ _ hd] at h
    cases h
  · rw [TestMutant_fresh _ _ _ hd] at h
    cases h
    simp [Cycles, writePkgs_dirs, List.range_succ]

theorem Cycles.zero (s : St) : Cycles 0 s s := by
  simp [Cycles]

theorem Cycles.trans {a b : Nat} {s t u : St} (h1 : Cycles a s t) (h2 : Cycles b t u) :
    Cycles (a + b) s u := by
  obtain ⟨ht, hc, hk, hd⟩ := h1
  obtain ⟨ht2, hc2, hk2, hd2⟩ := h2
  refine ⟨by rw [ht2, ht], by rw [hc2, hc]; push_cast; ring, by rw [hk2, hk]; push_cast; ring, ?_⟩
  rw [hd2, hd, ht, hc, List.range_add, List.map_append, List.map_map, List.append_assoc]
  congr 2
  apply List.map_congr_left
  intro j _
  simp only [Function.comp]
  congr 1
  push_cast
  ring

theorem Fresh.cycles {k : Nat} {s t : St} (hf : Fresh s) (h : Cycles k s t) : Fresh t := by
  obtain ⟨ht, hc, _, hd⟩ := h
  intro j hmem
  rw [ht, hc, hd, List.mem_append] at hmem
  rcases hmem with hmem | hmem
  · have := hf (k + j)
    push_cast at this
    rw [← add_assoc] at this
    exact this hmem
  · rw [List.mem_map] at hmem
    obtain ⟨i, hi, he⟩ := hmem
    have := mutantDirName_injective _ _ _ he
    rw [List.mem_range] at hi
    omega



/-! ## The walk with `swapIfElse` -/

theorem GoodAt.error {α : Type} {k : Nat} {enough : Prop} {s : St} {e : Fault}
    (h : ¬ (enough ∧ Fresh s)) : GoodAt k enough s (.error e : Res (α × St)) :=
  ⟨fun _ hr => (by cases hr), fun he hf => absurd ⟨he, hf⟩ h⟩

theorem GoodAt.ok {α : Type} {k : Nat} {enough : Prop} {s t : St} {a : α}
    (h : Cycles k s t) : GoodAt k enough s (.ok (a, t)) :=
  ⟨fun _ hr => (by cases hr; exact h), fun _ _ => ⟨_, rfl⟩⟩

theorem GoodAt.cases {α : Type} {k : Nat} {enough : Prop} {s : St} {res : Res (α × St)}
    (h : GoodAt k enough s res) :
    (∃ e, res = .error e ∧ ¬ (enough ∧ Fresh s)) ∨ (∃ a t, res = .ok (a, t) ∧ Cycles k s t) := by
  cases res with
  | error e =>
    left
    refine ⟨e, rfl, fun ⟨he, hf⟩ => ?_⟩
    obtain ⟨r, hr⟩ := h.2 he hf
    cases hr
  | ok p =>
    right
    exact ⟨p.1, p.2, rfl, h.1 p rfl⟩

theorem GoodAt.after {α : Type} {j k : Nat} {e1 e2 : Prop} {s t : St} {res : Res (α × St)}
    (hc : Cycles j s t) (h : GoodAt k e2 t res) (he : e1 → e2) : GoodAt (j + k) e1 s res :=
  ⟨fun r hr => hc.trans (h.1 r hr), fun h1 hf => h.2 (he h1) (hf.cycles hc)⟩

theorem Visit_nil (ctx : Node → List Node) (s : St) :
    Visit swapIfElse ctx none s = .ok (none, s) := rfl

theorem Visit_swap (ctx : Node → List Node) (n : Node) (s : St) :
    (∃ e, Visit swapIfElse ctx (some n) s = .error e ∧ ¬ Fresh s) ∨
    (∃ t, Visit swapIfElse ctx (some n) s = .ok (some (swapNode n), t) ∧
      Cycles (if eligible n then 1 else 0) s t) := by
  by_cases he : ∃ init cond body el, n = Node.IfStmt init cond body (some (Node.BlockStmt el))
  · obtain ⟨init, cond, body, el, rfl⟩ := he
    simp only [Visit, swapIfElse, swapNode, eligible]
    cases h1 : TestMutant (ctx (Node.IfStmt init cond (Node.BlockStmt el) (some body))) s.1 s.2 with
    | error e =>
      left
      refine ⟨e, rfl, fun hf => ?_⟩
      have h0 := hf 0
      simp only [Nat.cast_zero, add_zero] at h0
      rw [TestMutant_fresh _ _ _ h0] at h1
      cases h1
    | ok t =>
      right
      exact ⟨t, rfl, by simpa using TestMutant_cycle _ s t h1⟩
  · right
    have hn : Visit swapIfElse ctx (some n) s = .ok (some n, s) := by
      simp only [Visit, swapIfElse]
      split
      · rename_i init cond body el heq
        exact absurd ⟨init, cond, body, el, (Option.some.inj heq)⟩ he
      · rfl
    have hs : swapNode n = n := by
      unfold swapNode
      split
      · rename_i init cond body el
        exact absurd ⟨init, cond, body, el, rfl⟩ he
      · rfl
    have hel : eligible n = false := by
      unfold eligible
      split
      · rename_i init cond body el
        exact absurd ⟨_, _, _, _, rfl⟩ he
      · rfl
    rw [hn, hs, hel]
    exact ⟨s, rfl, by simpa using Cycles.zero s⟩

theorem walkOpt_good {fuel : Nat}
    {walk : (Node → List Node) → Option Node → St → Res (Node × St)}
    (hW : ∀ node ctx, Good (eligibleCount node) (size node ≤ fuel) (walk ctx (some node)))
    (ctx : Option Node → List Node) (child : Option Node) :
    Good (eligibleCountOpt child) (sizeOpt child ≤ fuel) (walkOpt walk ctx child) := by
  intro s
  cases child with
  | none => exact GoodAt.ok (Cycles.zero s)
  | some x =>
    simp only [walkOpt, eligibleCountOpt, sizeOpt]
    rcases (hW x (fun y => ctx (some y)) s).cases with ⟨e, h1, hn⟩ | ⟨x1, s1, h1, c1⟩
    · simp only [h1]
      exact GoodAt.error hn
    · simp only [h1]
      exact GoodAt.ok c1

theorem walkList_good {fuel : Nat}
    {walk : (Node → List Node) → Option Node → St → Res (Node × St)}
    (hW : ∀ node ctx, Good (eligibleCount node) (size node ≤ fuel) (walk ctx (some node)))
    (ctx : List Node → List Node) (xs : List Node) :
    ∀ done, Good (eligibleCountList xs) (sizeList xs ≤ fuel) (walkList walk ctx done xs) := by
  induction xs with
  | nil => intro done s; exact GoodAt.ok (Cycles.zero s)
  | cons x rest ih =>
    intro done s
    simp only [walkList, eligibleCountList, sizeList]
    rcases (hW x (fun y => ctx (done ++ y :: rest)) s).cases with ⟨e, h1, hn⟩ | ⟨x1, s1, h1, c1⟩
    · simp only [h1]
      exact GoodAt.error (fun ⟨he, hf⟩ => hn ⟨by omega, hf⟩)
    · simp only [h1]
      rcases (ih (done ++ [x1]) s1).cases with ⟨e, h2, hn⟩ | ⟨r1, s2, h2, c2⟩
      · simp only [h2]
        exact GoodAt.error (fun ⟨he, hf⟩ => hn ⟨by omega, hf.cycles c1⟩)
      · simp only [h2]
        exact GoodAt.ok (c1.trans c2)



theorem size_pos (n : Node) : 1 ≤ size n := by
  cases n <;> simp only [size] <;> omega

theorem size_swapNode (n : Node) : size (swapNode n) = size n := by
  unfold swapNode
  split
  · simp only [size, sizeOpt]; omega
  · rfl

theorem innerCount_swapNode (n : Node) : innerCount (swapNode n) = innerCount n := by
  unfold swapNode
  split
  · simp only [innerCount, eligibleCountOpt]; omega
  · rfl

theorem eligibleCount_eq (n : Node) :
    eligibleCount n = (if eligible n then 1 else 0) + innerCount n := by
  cases n with
  | IfStmt init cond body els =>
    cases els with
    | none => simp [eligibleCount, innerCount, eligible]
    | some e =>
      cases e <;> simp only [eligibleCount, innerCount, eligible] <;> simp
      omega
  | _ => simp [eligibleCount, innerCount, eligible]

theorem walkChildren_good {fuel : Nat}
    {walk : (Node → List Node) → Option Node → St → Res (Node × St)}
    (hW : ∀ node ctx, Good (eligibleCount node) (size node ≤ fuel) (walk ctx (some node)))
    (ctx : Node → List Node) (n : Node) :
    Good (innerCount n) (size n ≤ fuel + 1) (walkChildren walk ctx (some n)) := by
  intro s
  cases n with
  | Package name files =>
    simp only [walkChildren, innerCount, size]
    rcases (walkList_good hW (fun fs => ctx (Node.Package name fs)) files [] s).cases with
      ⟨e, h1, hn⟩ | ⟨r1, s1, h1, c1⟩
    · simp only [h1]
      exact GoodAt.error (fun ⟨he, hf⟩ => hn ⟨by omega, hf⟩)
    · simp only [h1]
      exact GoodAt.ok c1
  | File name children =>
    simp only [walkChildren, innerCount, size]
    rcases (walkList_good hW (fun cs => ctx (Node.File name cs)) children [] s).cases with
      ⟨e, h1, hn⟩ | ⟨r1, s1, h1, c1⟩
    · simp only [h1]
      exact GoodAt.error (fun ⟨he, hf⟩ => hn ⟨by omega, hf⟩)
    · simp only [h1]
      exact GoodAt.ok c1
  | BlockStmt list =>
    simp only [walkChildren, innerCount, size]
    rcases (walkList_good hW (fun l => ctx (Node.BlockStmt l)) list [] s).cases with
      ⟨e, h1, hn⟩ | ⟨r1, s1, h1, c1⟩
    · simp only [h1]
      exact GoodAt.error (fun ⟨he, hf⟩ => hn ⟨by omega, hf⟩)
    · simp only [h1]
      exact GoodAt.ok c1
  | other kind children =>
    simp only [walkChildren, innerCount, size]
    rcases (walkList_good hW (fun cs => ctx (Node.other kind cs)) children [] s).cases with
      ⟨e, h1, hn⟩ | ⟨r1, s1, h1, c1⟩
    · simp only [h1]
      exact GoodAt.error (fun ⟨he, hf⟩ => hn ⟨by omega, hf⟩)
    · simp only [h1]
      exact GoodAt.ok c1
  | IfStmt init cond body els =>
    simp only [walkChildren, innerCount, size]
    rcases (walkOpt_good hW (fun i => ctx (Node.IfStmt i cond body els)) init s).cases with
      ⟨e, h1, hn⟩ | ⟨init1, s1, h1, c1⟩
    · simp only [h1]
      exact GoodAt.error (fun ⟨he, hf⟩ => hn ⟨by omega, hf⟩)
    simp only [h1]
    rcases (hW cond (fun c => ctx (Node.IfStmt init1 c body els)) s1).cases with
      ⟨e, h2, hn⟩ | ⟨cond1, s2, h2, c2⟩
    · simp only [h2]
      exact GoodAt.error (fun ⟨he, hf⟩ => hn ⟨by omega, hf.cycles c1⟩)
    simp only [h2]
    rcases (hW body (fun b => ctx (Node.IfStmt init1 cond1 b els)) s2).cases with
      ⟨e, h3, hn⟩ | ⟨body1, s3, h3, c3⟩
    · simp only [h3]
      exact GoodAt.error (fun ⟨he, hf⟩ => hn ⟨by omega, (hf.cycles c1).cycles c2⟩)
    simp only [h3]
    rcases (walkOpt_good hW (fun e => ctx (Node.IfStmt init1 cond1 body1 e)) els s3).cases with
      ⟨e, h4, hn⟩ | ⟨els1, s4, h4, c4⟩
    · simp only [h4]
      exact GoodAt.error (fun ⟨he, hf⟩ => hn ⟨by omega, ((hf.cycles c1).cycles c2).cycles c3⟩)
    simp only [h4]
    exact GoodAt.ok (((c1.trans c2).trans c3).trans c4)

theorem Walk_good (fuel : Nat) : ∀ (n : Node) (ctx : Node → List Node),
    Good (eligibleCount n) (size n ≤ fuel) (Walk swapIfElse fuel ctx (some n)) := by
  induction fuel with
  | zero =>
    intro n ctx s
    have := size_pos n
    exact GoodAt.error (fun ⟨he, _⟩ => by omega)
  | succ fuel ih =>
    intro n ctx s
    simp only [Walk]
    rcases Visit_swap ctx n s with ⟨e, h1, hn⟩ | ⟨t, h1, c1⟩
    · simp only [h1]
      exact GoodAt.error (fun ⟨_, hf⟩ => hn hf)
    simp only [h1]
    rcases (walkChildren_good ih ctx (swapNode n) t).cases with ⟨e, h2, hn⟩ | ⟨n2, s2, h2, c2⟩
    · simp only [h2]
      exact GoodAt.error (fun ⟨he, hf⟩ => hn ⟨by rw [size_swapNode]; exact he, hf.cycles c1⟩)
    simp only [h2, Visit_nil]
    rw [eligibleCount_eq, ← innerCount_swapNode]
    exact GoodAt.ok (c1.trans c2)


theorem Walk_ok {fuel : Nat} {ctx : Node → List Node} {node : Option Node} {s : St}
    {r : Node × St} (h : Walk swapIfElse fuel ctx node s = .ok r) :
    ∃ n, node = some n ∧ Cycles (eligibleCount n) s r.2 := by
  cases node with
  | none =>
    cases fuel with
    | zero => cases h
    | succ fuel => simp [Walk, Visit_nil, walkChildren] at h
  | some n => exact ⟨n, rfl, (Walk_good fuel n ctx s).1 r h⟩

theorem main_ok {fuel : Nat} {tmpDir : String} {pkgs : List Node} {r : Node × St}
    (h : main fuel tmpDir pkgs = .ok r) :
    ∃ n, Cycles (eligibleCount n)
      ({ tmpDir := tmpDir, mutantCount := 0, mutantKill := 0 }, { dirs := [], written := [] })
      r.2 := by
  unfold main at h
  split at h
  · obtain ⟨n, _, hc⟩ := Walk_ok h
    exact ⟨n, hc⟩
  · obtain ⟨n, _, hc⟩ := Walk_ok h
    exact ⟨n, hc⟩

theorem fresh_start (tmpDir : String) (c k : Int) (written : List (String × Node)) :
    Fresh ({ tmpDir := tmpDir, mutantCount := c, mutantKill := k },
      { dirs := [], written := written }) := by
  intro j
  simp

theorem two_run :
    Walk swapIfElse 27 (fun p => [twoPkg].set 0 p) (some twoPkg) startState = .ok twoFinal := rfl

/-! ## The claims -/

/-- C1 (the code departs from it): `TestMutant` never runs the test command.
On the mutant of scenario B, whose tests pass, the call still adds one to
`mutantKill`: the mutant is counted as killed. -/
theorem TestMutant_counts_survivor_as_killed :
    TestMutant [survivorPkg] { tmpDir := "/tmp/mutester", mutantCount := 0, mutantKill := 0 }
        { dirs := [], written := [] } =
      .ok ({ tmpDir := "/tmp/mutester", mutantCount := 1, mutantKill := 1 },
        { dirs := ["/tmp/mutester/0"],
          written := [("/tmp/mutester/0/max.go", fileOf "/go/src/p/max.go" [maxIfSwapped])] }) :=
  rfl

/-- C2 (the code departs from it): `swapIfElse` does not swap the blocks back.
With a callback that does nothing, `if a > b { return a } else { return b }`
comes back with its body and else exchanged, which is another tree. -/
theorem swapIfElse_leaves_blocks_exchanged :
    swapIfElse (some maxIf) (fun _ (s : Unit) => .ok s) () = .ok (some maxIfSwapped, ()) ∧
    maxIfSwapped ≠ maxIf :=
  ⟨rfl, by simp [maxIf, maxIfSwapped, ret, ident]⟩

/-- C3 (the code departs from it): in a package with two eligible statements,
the first mutant written holds the first swap and the second mutant holds both
swaps, not the second swap alone. -/
theorem second_mutant_holds_both_swaps :
    (main 27 "/tmp/mutester" [twoPkg]).map (fun r => r.2.2.written) =
      .ok [("/tmp/mutester/0/two.go", fileOf "/go/src/p/two.go" [maxIfSwapped, minIf]),
           ("/tmp/mutester/1/two.go", fileOf "/go/src/p/two.go" [maxIfSwapped, minIfSwapped])] ∧
    fileOf "/go/src/p/two.go" [maxIfSwapped, minIfSwapped] ≠
      fileOf "/go/src/p/two.go" [maxIf, minIfSwapped] :=
  ⟨rfl, by simp [fileOf, maxIf, maxIfSwapped, ret, ident]⟩

/-- C4: on a node that is not an if statement (nil included), on an if
statement without an else and on an if statement whose else is an if statement,
`swapIfElse` returns the node with every field as it was and the state as it
was, whatever the callback is: the callback is not called. -/
theorem swapIfElse_ineligible {σ : Type} (node : Option Node) (testMutant : Node → σ → Res σ)
    (s : σ) (h : isIfStmt node = false ∨ hasNoElse node = true ∨ isElseIf node = true) :
    swapIfElse node testMutant s = .ok (node, s) := by
  unfold swapIfElse
  split
  · simp [isIfStmt, hasNoElse, isElseIf] at h
  · rfl

/-- Witness of C4: the head of an else-if chain, with a callback that would
panic if it were called. -/
theorem swapIfElse_ineligible_witness :
    isElseIf (some chainIf) = true ∧
    swapIfElse (some chainIf) (fun _ (_ : Unit) => .error Fault.panic) () =
      .ok (some chainIf, ()) :=
  ⟨rfl, swapIfElse_ineligible (some chainIf) _ () (Or.inr (Or.inr rfl))⟩

/-- C5: on an if statement whose else is a plain block, the result of
`swapIfElse` is the result of one call of the callback, made on the node with
`Body` the original else block, `Else` the original body, and `Init` and `Cond`
as they were, from the state `swapIfElse` was given; a callback that records
what it sees records this one node. -/
theorem swapIfElse_calls_back_swapped {σ : Type} (init : Option Node) (cond body : Node)
    (el : List Node) (testMutant : Node → σ → Res σ) (s : σ) (log : List Node) :
    swapIfElse (some (Node.IfStmt init cond body (some (Node.BlockStmt el)))) testMutant s =
      (testMutant (Node.IfStmt init cond (Node.BlockStmt el) (some body)) s).map
        (fun s1 => (some (Node.IfStmt init cond (Node.BlockStmt el) (some body)), s1)) ∧
    swapIfElse (some (Node.IfStmt init cond body (some (Node.BlockStmt el))))
        (fun n seen => .ok (seen ++ [n])) log =
      .ok (some (Node.IfStmt init cond (Node.BlockStmt el) (some body)),
        log ++ [Node.IfStmt init cond (Node.BlockStmt el) (some body)]) := by
  refine ⟨?_, rfl⟩
  simp only [swapIfElse]
  cases testMutant (Node.IfStmt init cond (Node.BlockStmt el) (some body)) s <;> rfl

/-- C6: the walk of a tree by a visitor that starts with both counters at
zero in an empty directory returns when the fuel covers the tree, and it has
then run `TestMutant` once for each if statement of the tree whose else is a
plain block: `mutantCount` is their number and so is the number of directories
made.  With no such statement both counters end at zero and the score is 0/0,
not a number. -/
theorem Walk_counts_eligible_sites (fuel : Nat) (tmpDir : String) (ctx : Node → List Node)
    (node : Node) (h : size node ≤ fuel) :
    ∃ node1 v w,
      Walk swapIfElse fuel ctx (some node)
          ({ tmpDir := tmpDir, mutantCount := 0, mutantKill := 0 },
            { dirs := [], written := [] }) = .ok (node1, v, w) ∧
      v.mutantCount = eligibleCount node ∧
      w.dirs.length = eligibleCount node ∧
      (eligibleCount node = 0 →
        v.mutantCount = 0 ∧ v.mutantKill = 0 ∧ mutationScore v = Score.NaN) := by
  have hg := Walk_good fuel node ctx
    ({ tmpDir := tmpDir, mutantCount := 0, mutantKill := 0 }, { dirs := [], written := [] })
  obtain ⟨⟨node1, v, w⟩, hr⟩ := hg.2 h (fresh_start tmpDir 0 0 [])
  obtain ⟨_, hc, hk, hd⟩ := hg.1 _ hr
  simp only [zero_add, List.nil_append] at hc hk hd
  refine ⟨node1, v, w, hr, hc, by simp [hd], fun h0 => ?_⟩
  rw [h0] at hc hk
  simp only [Nat.cast_zero] at hc hk
  exact ⟨hc, hk, by simp [mutationScore, hc, hk]⟩

/-- Witness of C6: the package with two eligible statements. -/
theorem Walk_counts_eligible_sites_witness :
    size twoPkg ≤ 27 ∧
    ∃ node1 v w,
      Walk swapIfElse 27 (fun p => [p]) (some twoPkg)
          ({ tmpDir := "/tmp/mutester", mutantCount := 0, mutantKill := 0 },
            { dirs := [], written := [] }) = .ok (node1, v, w) ∧
      v.mutantCount = 2 := by
  refine ⟨by decide, ?_⟩
  obtain ⟨node1, v, w, hr, hc, _⟩ :=
    Walk_counts_eligible_sites 27 "/tmp/mutester" (fun p => [p]) twoPkg (by decide)
  exact ⟨node1, v, w, hr, by rw [hc]; rfl⟩

/-- C7: each call of `TestMutant` that returns has made the directory
`tmpDir/<mutantCount>`, and after a run that has generated `N` mutants the
directories made are `tmpDir/0`, …, `tmpDir/(N-1)`, in this order, no two of
them the same. -/
theorem mutant_dirs_numbered (fuel : Nat) (tmpDir : String) (pkgs : List Node) (node : Node)
    (v : Visitor) (w : World) (h : main fuel tmpDir pkgs = .ok (node, v, w)) :
    (∀ (ps : List Node) (v1 v2 : Visitor) (w1 w2 : World),
      TestMutant ps v1 w1 = .ok (v2, w2) →
        w2.dirs = w1.dirs ++ [v1.tmpDir ++ PathSeparator ++ Itoa v1.mutantCount]) ∧
    ∃ N : Nat, v.mutantCount = N ∧
      w.dirs = (List.range N).map (fun (k : Nat) => tmpDir ++ PathSeparator ++ Itoa (k : Int)) ∧
      w.dirs.Nodup := by
  constructor
  · intro ps v1 v2 w1 w2 ht
    have hc := TestMutant_cycle ps (v1, w1) (v2, w2) ht
    simpa [Cycles, List.range_succ, mutantDirName] using hc.2.2.2
  · obtain ⟨n, _, hc, _, hd⟩ := main_ok h
    simp only [zero_add, List.nil_append] at hc hd
    refine ⟨eligibleCount n, hc, hd, ?_⟩
    rw [hd]
    refine (List.nodup_range _).map ?_
    intro a b hab
    have := mutantDirName_injective tmpDir _ _ hab
    omega

/-- Witness of C7: the run on the package with two eligible statements. -/
theorem mutant_dirs_numbered_witness :
    main 27 "/tmp/mutester" [twoPkg] = .ok twoFinal ∧
    twoFinal.2.2.dirs = ["/tmp/mutester/0", "/tmp/mutester/1"] ∧
    twoFinal.2.2.dirs.Nodup := by
  obtain ⟨_, N, _, _, hn⟩ :=
    mutant_dirs_numbered 27 "/tmp/mutester" [twoPkg] twoFinal.1 twoFinal.2.1 twoFinal.2.2 two_run
  exact ⟨two_run, rfl, hn⟩

/-- C8: a call of `TestMutant` that returns has raised `mutantCount` by one
and `mutantKill` by zero or one; `Visit` leaves the state as it was on a node
that is not eligible, and `swapIfElse` changes the state only through its
callback; over a walk that returns neither counter has gone down, and
`mutantKill ≤ mutantCount` holds after it when it held before. -/
theorem counters_monotone :
    (∀ (pkgs : List Node) (v v1 : Visitor) (w w1 : World),
      TestMutant pkgs v w = .ok (v1, w1) →
        v1.mutantCount = v.mutantCount + 1 ∧
        (v1.mutantKill = v.mutantKill ∨ v1.mutantKill = v.mutantKill + 1)) ∧
    (∀ (ctx : Node → List Node) (node : Option Node) (s : St),
      (∀ n, node = some n → eligible n = false) →
        Visit swapIfElse ctx node s = .ok (node, s)) ∧
    (∀ (σ : Type) (node : Option Node) (testMutant : Node → σ → Res σ) (s : σ)
        (r : Option Node × σ),
      swapIfElse node testMutant s = .ok r → r.2 = s ∨ ∃ n, testMutant n s = .ok r.2) ∧
    (∀ (fuel : Nat) (ctx : Node → List Node) (node : Option Node) (v v1 : Visitor)
        (w w1 : World) (node1 : Node),
      Walk swapIfElse fuel ctx node (v, w) = .ok (node1, v1, w1) →
        v.mutantCount ≤ v1.mutantCount ∧ v.mutantKill ≤ v1.mutantKill ∧
        (v.mutantKill ≤ v.mutantCount → v1.mutantKill ≤ v1.mutantCount)) := by
  refine ⟨?_, ?_, ?_, ?_⟩
  · intro pkgs v v1 w w1 h
    obtain ⟨_, hc, hk, _⟩ := TestMutant_cycle pkgs (v, w) (v1, w1) h
    exact ⟨by simpa using hc, Or.inr (by simpa using hk)⟩
  · intro ctx node s h
    cases node with
    | none => rfl
    | some n =>
      simp only [Visit, swapIfElse]
      split
      · rename_i heq
        have := h n rfl
        cases (Option.some.inj heq)
        simp [eligible] at this
      · rfl
  · intro σ node testMutant s r h
    simp only [swapIfElse] at h
    split at h
    · split at h
      · cases h
      · rename_i s1 hs
        cases h
        exact Or.inr ⟨_, hs⟩
    · cases h
      exact Or.inl rfl
  · intro fuel ctx node v v1 w w1 node1 h
    obtain ⟨n, _, _, hc, hk, _⟩ := Walk_ok h
    simp only at hc hk
    omega

/-- Witness of C8: the run on the package with two eligible statements. -/
theorem counters_monotone_witness :
    Walk swapIfElse 27 (fun p => [twoPkg].set 0 p) (some twoPkg) startState = .ok twoFinal ∧
    startState.1.mutantCount ≤ twoFinal.2.1.mutantCount ∧
    startState.1.mutantKill ≤ twoFinal.2.1.mutantKill ∧
    (startState.1.mutantKill ≤ startState.1.mutantCount →
      twoFinal.2.1.mutantKill ≤ twoFinal.2.1.mutantCount) :=
  ⟨two_run, counters_monotone.2.2.2 27 (fun p => [twoPkg].set 0 p) (some twoPkg) startState.1
    twoFinal.2.1 startState.2 twoFinal.2.2 twoFinal.1 two_run⟩

/-- C9 (the code departs from it): in the walk of
`if a > b { return a } else if c < d { return c } else { return d }` the head
of the chain is left alone, but the else-if link is visited as a node of its
own: its body and the final else are exchanged and one mutant is generated. -/
theorem else_if_link_is_swapped :
    main 24 "/tmp/mutester" [chainPkg] =
      .ok (Node.Package "p" [chainFileSwapped],
        { tmpDir := "/tmp/mutester", mutantCount := 1, mutantKill := 1 },
        { dirs := ["/tmp/mutester/0"],
          written := [("/tmp/mutester/0/chain.go", chainFileSwapped)] }) ∧
    eligibleCount chainPkg = 1 ∧ minIfSwapped ≠ minIf :=
  ⟨rfl, rfl, by simp [minIf, minIfSwapped, ret, ident]⟩

/-- C10: in a call of `TestMutant` that returns, the error of `os.Mkdir`, the
one given to `getExitCode`, is nil; the call has raised `mutantKill` by one as
it has `mutantCount`, and the visitor it returns is the same whatever trees it
was given to write; a walk that returns keeps `mutantKill = mutantCount`; after
a run both are equal, and the score is 1 when a mutant was generated. -/
theorem every_mutant_counted_killed :
    (∀ (pkgs : List Node) (v v1 : Visitor) (w w1 : World),
      TestMutant pkgs v w = .ok (v1, w1) →
        (Mkdir w (v.tmpDir ++ PathSeparator ++ Itoa v.mutantCount)).1 = none ∧
        v1.mutantKill = v.mutantKill + 1 ∧ v1.mutantCount = v.mutantCount + 1 ∧
        ∀ pkgs2 : List Node, ∃ w2, TestMutant pkgs2 v w = .ok (v1, w2)) ∧
    (∀ (fuel : Nat) (ctx : Node → List Node) (node : Option Node) (v v1 : Visitor)
        (w w1 : World) (node1 : Node),
      Walk swapIfElse fuel ctx node (v, w) = .ok (node1, v1, w1) →
        v.mutantKill = v.mutantCount → v1.mutantKill = v1.mutantCount) ∧
    (∀ (fuel : Nat) (tmpDir : String) (pkgs : List Node) (node : Node) (v : Visitor)
        (w : World),
      main fuel tmpDir pkgs = .ok (node, v, w) →
        v.mutantKill = v.mutantCount ∧
        (v.mutantCount ≠ 0 → mutationScore v = Score.finite 1)) := by
  refine ⟨?_, ?_, ?_⟩
  · intro pkgs v v1 w w1 h
    by_cases hd : mutantDirName v.tmpDir v.mutantCount ∈ w.dirs
    · rw [TestMutant_exists _ _ _ hd] at h
      cases h
    · rw [TestMutant_fresh _ _ _ hd] at h
      cases h
      refine ⟨?_, rfl, rfl, fun pkgs2 => ⟨_, TestMutant_fresh _ _ _ hd⟩⟩
      unfold mutantDirName at hd
      simp [Mkdir, hd]
  · intro fuel ctx node v v1 w w1 node1 h he
    obtain ⟨n, _, _, hc, hk, _⟩ := Walk_ok h
    simp only at hc hk
    omega
  · intro fuel tmpDir pkgs node v w h
    obtain ⟨n, _, hc, hk, _⟩ := main_ok h
    simp only [zero_add] at hc hk
    refine ⟨by rw [hc, hk], fun h0 => ?_⟩
    have hq : (v.mutantCount : ℚ) ≠ 0 := by exact_mod_cast h0
    simp [mutationScore, h0, hk, ← hc, div_self hq]

/-- Witness of C10: the run on the package with two eligible statements ends
with both counters at two and the score 1. -/
theorem every_mutant_counted_killed_witness :
    main 27 "/tmp/mutester" [twoPkg] = .ok twoFinal ∧
    twoFinal.2.1.mutantKill = twoFinal.2.1.mutantCount ∧
    (twoFinal.2.1.mutantCount ≠ 0 → mutationScore twoFinal.2.1 = Score.finite 1) :=
  ⟨two_run, every_mutant_counted_killed.2.2 27 "/tmp/mutester" [twoPkg] twoFinal.1 twoFinal.2.1
    twoFinal.2.2 two_run⟩

end Godzilla
